import Mathlib

/-!
Verification of the mmorpg_tools core: a shallow embedding of the world
state, the action variants, the rule-based brain and the game engine,
followed by theorems about the behaviour the specification describes.
Python dicts are modelled as insertion-ordered association lists.
-/

namespace MMORPG

/-- Lookup in an association list, the model of Python `dict.get`. -/
def alookup {α : Type} : List (String × α) → String → Option α
  | [], _ => none
  | (k', v) :: rest, k => if k' = k then some v else alookup rest k

/-- Insert or overwrite by key, the model of Python `dict[k] = v`:
an existing key is updated in place, a new key is appended. -/
def aset {α : Type} : List (String × α) → String → α → List (String × α)
  | [], k, v => [(k, v)]
  | (k', v') :: rest, k, v =>
    if k' = k then (k, v) :: rest else (k', v') :: aset rest k v

/-- The model of Python `dict.get(k, d)`. -/
def agetD {α : Type} (m : List (String × α)) (k : String) (d : α) : α :=
  (alookup m k).getD d

structure Area where
  name : String
  description : String
  neighbors : List String := []
  resources : List (String × Int) := []
  deriving Repr, DecidableEq

structure QuestProgress where
  quest_id : String
  progress : List (String × Int) := []
  completed : Bool := false
  deriving Repr, DecidableEq

structure Quest where
  quest_id : String
  title : String
  description : String
  objectives : List (String × Int)
  progress : List (String × Int) := []
  completed : Bool := false
  deriving Repr, DecidableEq

structure Entity where
  entity_id : String
  name : String
  area : String
  hp : Int := 100
  mana : Int := 50
  inventory : List (String × Int) := []
  tags : List String := []
  quest_log : List (String × QuestProgress) := []
  deriving Repr, DecidableEq

def Entity.is_alive (e : Entity) : Bool :=
  decide (0 < e.hp)

structure WorldEvent where
  tick : Int
  kind : String
  detail : String
  actor_id : Option String := none
  deriving Repr, DecidableEq

/-- The game data an effect callback can read and mutate: every component of
the world except the skill registry itself.  An inductive world cannot store
callables over itself (the occurrence would be negative), so the registry is
the one component an effect cannot rewrite; everything else — areas, entities,
quests, the event log and the clock — is open to it, as the spec's capability
interface demands. -/
structure WorldBase where
  areas : List (String × Area) := []
  entities : List (String × Entity) := []
  quests : List (String × Quest) := []
  events : List WorldEvent := []
  clock : Int := 0

/-- Modelled from the spec: the skill records registered through the
authoring collaborator's `add_skill`; `src/mmorpg_tools/world.py` does not
define `Skill`, but `src/mmorpg_tools/ai.py` reads `skill_id` and
`mana_cost` from it.  The effect is the spec's capability callback taking
(world, caster, optional target) and returning a result tag, free to mutate
the world's game data. -/
structure Skill where
  skill_id : String
  name : String
  mana_cost : Int
  effect : WorldBase → String → Option String → WorldBase × String

structure WorldState where
  areas : List (String × Area) := []
  entities : List (String × Entity) := []
  quests : List (String × Quest) := []
  events : List WorldEvent := []
  clock : Int := 0
  /-- Modelled from the spec: the skill registry read by
  `RuleBasedBrain.decide` via `world.skills`; absent from
  `src/mmorpg_tools/world.py` but populated by the authoring collaborator. -/
  skills : List (String × Skill) := []

/-- Python's `all(self.progress.get(key, 0) >= required for key, required in
quest.objectives.items())`. -/
def objectivesMet (objectives : List (String × Int)) (progress : List (String × Int)) : Bool :=
  objectives.all (fun kv => decide (agetD progress kv.1 0 ≥ kv.2))

def QuestProgress.update (p : QuestProgress) (quest : Quest)
    (objective : String) (amount : Int) : QuestProgress :=
  let current := agetD p.progress objective 0
  let progress := aset p.progress objective (current + amount)
  if objectivesMet quest.objectives progress then
    { p with progress := progress, completed := true }
  else
    { p with progress := progress }

def Quest.update_progress (q : Quest) (objective : String) (amount : Int) : Quest :=
  let current := agetD q.progress objective 0
  let progress := aset q.progress objective (current + amount)
  if objectivesMet q.objectives progress then
    { q with progress := progress, completed := true }
  else
    { q with progress := progress }

def WorldState.get_entity (w : WorldState) (entity_id : String) : Option Entity :=
  alookup w.entities entity_id

def WorldState.get_entities_in_area (w : WorldState) (area_name : String) : List Entity :=
  (w.entities.map Prod.snd).filter (fun e => decide (e.area = area_name))

def WorldState.get_recent_events (w : WorldState) (limit : Int) : List WorldEvent :=
  if limit ≤ 0 then []
  else w.events.drop (w.events.length - limit.toNat)

def WorldState.assign_quest (w : WorldState) (entity_id quest_id : String) :
    WorldState × Bool :=
  match alookup w.entities entity_id, alookup w.quests quest_id with
  | some entity, some _ =>
    if (alookup entity.quest_log quest_id).isSome then (w, false)
    else
      let fresh : QuestProgress := { quest_id := quest_id, progress := [], completed := false }
      let entity1 := { entity with quest_log := aset entity.quest_log quest_id fresh }
      ({ w with entities := aset w.entities entity_id entity1 }, true)
  | _, _ => (w, false)

def WorldState.adjust_area_resource (w : WorldState) (area_name resource : String)
    (delta : Int) : WorldState × Int :=
  match alookup w.areas area_name with
  | none => (w, 0)
  | some area =>
    let current := agetD area.resources resource 0
    let new_value := max 0 (current + delta)
    let area1 := { area with resources := aset area.resources resource new_value }
    ({ w with areas := aset w.areas area_name area1 }, new_value)

/-- The per-record body of the `update_entity_quest_progress` loop:
skip if the owning quest is missing or the record is completed, update
if the quest's objectives contain the key. -/
def quest_step (w : WorldState) (objective : String) (amount : Int)
    (quest_id : String) (p : QuestProgress) : QuestProgress :=
  match alookup w.quests quest_id with
  | none => p
  | some quest =>
    if p.completed then p
    else if (alookup quest.objectives objective).isSome then
      p.update quest objective amount
    else p

def WorldState.update_entity_quest_progress (w : WorldState)
    (entity_id objective : String) (amount : Int) : WorldState :=
  match alookup w.entities entity_id with
  | none => w
  | some entity =>
    let quest_log := entity.quest_log.map
      (fun kv => (kv.1, quest_step w objective amount kv.1 kv.2))
    { w with entities := aset w.entities entity_id ({ entity with quest_log := quest_log }) }

def WorldState.log_event (w : WorldState) (kind detail : String)
    (actor_id : Option String) : WorldState :=
  { w with events := w.events ++
      [{ tick := w.clock, kind := kind, detail := detail, actor_id := actor_id }] }

/-- Modelled from the spec: `WorldState.record_event` is called by
`GameEngine.apply_action` but absent from `src/mmorpg_tools/world.py`;
per the spec the engine "logs an `action_invalid:<ActionKind>:<actorId>`
event", so it appends a `WorldEvent` of the given kind stamped with the
current tick. -/
def WorldState.record_event (w : WorldState) (kind : String) : WorldState :=
  { w with events := w.events ++
      [{ tick := w.clock, kind := kind, detail := "", actor_id := none }] }

def WorldState.tick (w : WorldState) : WorldState :=
  { w with clock := w.clock + 1 }

/-- The view of the world a skill effect receives. -/
def WorldState.base (w : WorldState) : WorldBase :=
  { areas := w.areas, entities := w.entities, quests := w.quests,
    events := w.events, clock := w.clock }

/-- Re-attach the skill registry to the game data an effect returned. -/
def WorldState.withBase (w : WorldState) (b : WorldBase) : WorldState :=
  { areas := b.areas, entities := b.entities, quests := b.quests,
    events := b.events, clock := b.clock, skills := w.skills }

structure ActionResult where
  status : String
  detail : String
  deriving Repr, DecidableEq

/-- The closed action family of `src/mmorpg_tools/actions.py`; every variant
carries the base-class fields `actor_id` and `target_id`.  `useSkill` is
modelled from the spec: its class is absent from `src/mmorpg_tools/actions.py`
but constructed by `RuleBasedBrain.decide`. -/
inductive Action where
  | move (actor_id : String) (target_id : Option String) (destination : String)
  | attack (actor_id : String) (target_id : Option String) (damage : Int)
  | gather (actor_id : String) (target_id : Option String) (resource : String) (amount : Int)
  | craft (actor_id : String) (target_id : Option String) (recipe : String)
      (output : String) (requirements : List (String × Int))
  | chat (actor_id : String) (target_id : Option String) (message : String)
  | observe (actor_id : String) (target_id : Option String)
  | rest (actor_id : String) (target_id : Option String) (hp_restore mana_restore : Int)
  | acceptQuest (actor_id : String) (target_id : Option String) (quest_id : String)
  | useSkill (actor_id : String) (target_id : Option String) (skill_id : String)
  deriving Repr, DecidableEq

def Action.actor_id : Action → String
  | .move a _ _ => a
  | .attack a _ _ => a
  | .gather a _ _ _ => a
  | .craft a _ _ _ _ => a
  | .chat a _ _ => a
  | .observe a _ => a
  | .rest a _ _ _ => a
  | .acceptQuest a _ _ => a
  | .useSkill a _ _ => a

/-- Python's `action.__class__.__name__`. -/
def Action.kindName : Action → String
  | .move _ _ _ => "Move"
  | .attack _ _ _ => "Attack"
  | .gather _ _ _ _ => "Gather"
  | .craft _ _ _ _ _ => "Craft"
  | .chat _ _ _ => "Chat"
  | .observe _ _ => "Observe"
  | .rest _ _ _ _ => "Rest"
  | .acceptQuest _ _ _ => "AcceptQuest"
  | .useSkill _ _ _ => "UseSkill"

def Action.can_execute (a : Action) (w : WorldState) : Bool :=
  match a with
  | .move actor_id _ destination =>
    match alookup w.entities actor_id with
    | none => false
    | some actor =>
      if (alookup w.areas destination).isNone then false
      else
        match alookup w.areas actor.area with
        | some current_area => current_area.neighbors.contains destination
        | none => false
  | .attack actor_id target_id _ =>
    match alookup w.entities actor_id, alookup w.entities (target_id.getD "") with
    | some actor, some target =>
      decide (actor.area = target.area) && target.is_alive
    | _, _ => false
  | .gather actor_id _ _ _ => (alookup w.entities actor_id).isSome
  | .craft actor_id _ _ _ _ => (alookup w.entities actor_id).isSome
  | .chat actor_id _ _ => (alookup w.entities actor_id).isSome
  | .observe actor_id _ => (alookup w.entities actor_id).isSome
  | .rest actor_id _ _ _ => (alookup w.entities actor_id).isSome
  | .acceptQuest actor_id _ quest_id =>
    (alookup w.entities actor_id).isSome && (alookup w.quests quest_id).isSome
  | .useSkill actor_id _ skill_id =>
    match alookup w.entities actor_id, alookup w.skills skill_id with
    | some actor, some skill => decide (skill.mana_cost ≤ actor.mana)
    | _, _ => false

/-- Insertion step for the sort in `Observe.execute`. -/
def insertSortedRes (kv : String × Int) : List (String × Int) → List (String × Int)
  | [] => [kv]
  | x :: xs => if kv.1 ≤ x.1 then kv :: x :: xs else x :: insertSortedRes kv xs

/-- The model of Python `sorted(area.resources.items())` (keys are unique,
so sorting by key suffices). -/
def sortRes : List (String × Int) → List (String × Int)
  | [] => []
  | x :: xs => insertSortedRes x (sortRes xs)

def Action.execute (a : Action) (w : WorldState) : WorldState × ActionResult :=
  match a with
  | .move actor_id _ destination =>
    match alookup w.entities actor_id with
    | none => (w, ⟨"error", "actor_not_found"⟩)
    | some actor =>
      let w1 := { w with entities := aset w.entities actor_id ({ actor with area := destination }) }
      let w2 := w1.log_event "move" (actor.entity_id ++ ":" ++ destination) (some actor.entity_id)
      let w3 := w2.update_entity_quest_progress actor.entity_id ("travel:" ++ destination) 1
      (w3, ⟨"ok", "moved_to:" ++ destination⟩)
  | .attack actor_id target_id damage =>
    match alookup w.entities (target_id.getD "") with
    | none => (w, ⟨"error", "target_not_found"⟩)
    | some target =>
      let target1 := { target with hp := max 0 (target.hp - damage) }
      let w1 := { w with entities := aset w.entities (target_id.getD "") target1 }
      let w2 := w1.log_event "attack"
        (actor_id ++ ":" ++ target.entity_id ++ ":" ++ toString damage) (some actor_id)
      if target1.is_alive then
        (w2, ⟨"ok", "hit:" ++ target.entity_id ++ ":" ++ toString damage⟩)
      else
        let w3 := w2.update_entity_quest_progress actor_id ("defeat:" ++ target.entity_id) 1
        let w4 := target.tags.foldl
          (fun wa tag => wa.update_entity_quest_progress actor_id ("defeat_tag:" ++ tag) 1) w3
        (w4, ⟨"ok", "hit:" ++ target.entity_id ++ ":" ++ toString damage⟩)
  | .gather actor_id _ resource amount =>
    match alookup w.entities actor_id with
    | none => (w, ⟨"error", "actor_not_found"⟩)
    | some actor =>
      match alookup w.areas actor.area with
      | none => (w, ⟨"error", "area_not_found"⟩)
      | some area =>
        let available := agetD area.resources resource 0
        if available ≤ 0 then (w, ⟨"error", "resource_depleted"⟩)
        else
          let actual_amount := min amount available
          let w1 := (w.adjust_area_resource actor.area resource (-actual_amount)).1
              let inv1 := aset actor.inventory resource (agetD actor.inventory resource 0 + actual_amount)
          let actor1 := { actor with inventory := inv1 }
          let w2 := { w1 with entities := aset w1.entities actor_id actor1 }
          let w3 := w2.log_event "gather"
            (actor.entity_id ++ ":" ++ resource ++ ":" ++ toString actual_amount)
            (some actor.entity_id)
          let w4 := w3.update_entity_quest_progress actor.entity_id
            ("gather:" ++ resource) actual_amount
          (w4, ⟨"ok", "gathered:" ++ resource ++ ":" ++ toString actual_amount⟩)
  | .craft actor_id _ _ output requirements =>
    match alookup w.entities actor_id with
    | none => (w, ⟨"error", "actor_not_found"⟩)
    | some actor =>
      if requirements.all (fun kv => decide (agetD actor.inventory kv.1 0 ≥ kv.2)) then
        -- Python `actor.inventory[item] -= qty` presumes the key is present,
        -- which the all-or-nothing check guarantees whenever qty ≥ 1.
        let inv1 := requirements.foldl
          (fun inv kv => aset inv kv.1 (agetD inv kv.1 0 - kv.2)) actor.inventory
        let inv2 := aset inv1 output (agetD inv1 output 0 + 1)
        let w1 := { w with entities := aset w.entities actor_id ({ actor with inventory := inv2 }) }
        let w2 := w1.log_event "craft" (actor.entity_id ++ ":" ++ output) (some actor.entity_id)
        let w3 := w2.update_entity_quest_progress actor.entity_id ("craft:" ++ output) 1
        (w3, ⟨"ok", "crafted:" ++ output⟩)
      else (w, ⟨"error", "missing_materials"⟩)
  | .chat actor_id _ message =>
    match alookup w.entities actor_id with
    | none => (w, ⟨"error", "actor_not_found"⟩)
    | some actor =>
      let w1 := w.log_event "chat" (actor.entity_id ++ ":" ++ message) (some actor.entity_id)
      (w1, ⟨"ok", "chat:" ++ actor.name ++ ":" ++ message⟩)
  | .observe actor_id _ =>
    match alookup w.entities actor_id with
    | none => (w, ⟨"error", "actor_not_found"⟩)
    | some actor =>
      match alookup w.areas actor.area with
      | none => (w, ⟨"error", "area_not_found"⟩)
      | some area =>
        let inhabitants := ((w.get_entities_in_area actor.area).filter
          (fun e => decide (e.entity_id ≠ actor.entity_id))).map Entity.name
        let resourceStr := ", ".intercalate
          ((sortRes area.resources).map (fun kv => kv.1 ++ ":" ++ toString kv.2))
        let resources := if resourceStr = "" then "none" else resourceStr
        let w1 := w.log_event "observe" (actor.entity_id ++ ":" ++ actor.area) (some actor.entity_id)
        let inhStr := ",".intercalate inhabitants
        let inh := if inhStr = "" then "none" else inhStr
        (w1, ⟨"ok", "area:" ++ area.name ++ "|entities:" ++ inh ++ "|resources:" ++ resources⟩)
  | .rest actor_id _ hp_restore mana_restore =>
    match alookup w.entities actor_id with
    | none => (w, ⟨"error", "actor_not_found"⟩)
    | some actor =>
      let actor1 := { actor with hp := min 100 (actor.hp + hp_restore),
                                 mana := min 50 (actor.mana + mana_restore) }
      let w1 := { w with entities := aset w.entities actor_id actor1 }
      let w2 := w1.log_event "rest"
        (actor.entity_id ++ ":" ++ toString hp_restore ++ ":" ++ toString mana_restore)
        (some actor.entity_id)
      (w2, ⟨"ok", "rested"⟩)
  | .acceptQuest actor_id _ quest_id =>
    let out := w.assign_quest actor_id quest_id
    if out.2 then
      let w1 := out.1.log_event "quest_accept" (actor_id ++ ":" ++ quest_id) (some actor_id)
      (w1, ⟨"ok", "quest_accepted:" ++ quest_id⟩)
    else (w, ⟨"error", "quest_unavailable"⟩)
  | .useSkill actor_id target_id skill_id =>
    -- Modelled from the spec: mana check, mana deduction, invocation of the
    -- skill's effect callback, then the use logged with the returned tag.
    match alookup w.entities actor_id with
    | none => (w, ⟨"error", "actor_not_found"⟩)
    | some actor =>
      match alookup w.skills skill_id with
      | none => (w, ⟨"error", "skill_missing"⟩)
      | some skill =>
        if actor.mana < skill.mana_cost then (w, ⟨"error", "insufficient_mana"⟩)
        else
          let actor1 := { actor with mana := actor.mana - skill.mana_cost }
          let w1 := { w with entities := aset w.entities actor_id actor1 }
          let eff := skill.effect w1.base actor_id target_id
          let w2 := w1.withBase eff.1
          let w3 := w2.log_event "use_skill"
            (actor_id ++ ":" ++ skill_id ++ ":" ++ eff.2) (some actor_id)
          (w3, ⟨"ok", "used:" ++ skill_id ++ ":" ++ eff.2⟩)

abbrev Brain := WorldState → String → List Action

def GameEngine.apply_action (w : WorldState) (action : Action) :
    WorldState × ActionResult :=
  if action.can_execute w then action.execute w
  else
    (w.record_event ("action_invalid:" ++ action.kindName ++ ":" ++ action.actor_id),
     ⟨"error", "invalid_action"⟩)

def GameEngine.apply_actions (w : WorldState) (results : List ActionResult) :
    List Action → WorldState × List ActionResult
  | [] => (w, results)
  | a :: rest =>
    let out := GameEngine.apply_action w a
    GameEngine.apply_actions out.1 (results ++ [out.2]) rest

def GameEngine.step_actors (w : WorldState) (results : List ActionResult) :
    List (String × Brain) → WorldState × List ActionResult
  | [] => (w, results)
  | (entity_id, brain) :: rest =>
    let out := GameEngine.apply_actions w results (brain w entity_id)
    GameEngine.step_actors out.1 out.2 rest

def GameEngine.step (w : WorldState) (brains : List (String × Brain)) :
    WorldState × List ActionResult :=
  let out := GameEngine.step_actors w [] brains
  (out.1.tick, out.2)

structure RuleBasedBrain where
  gather_resource : String := "bois"
  deriving Repr, DecidableEq

/-- The `next(...)` generator in `RuleBasedBrain.decide`: the first live,
co-located entity distinct from the actor, in storage order. -/
def findLiveTarget (w : WorldState) (actor : Entity) (actor_id : String) : Option Entity :=
  (w.entities.map Prod.snd).find?
    (fun e => decide (e.entity_id ≠ actor_id) && decide (e.area = actor.area) && e.is_alive)

/-- The skill loop of `RuleBasedBrain.decide`: first affordable skill that
also has a live, co-located, distinct target. -/
def skill_choice (w : WorldState) (actor : Entity) (actor_id : String) :
    List (String × Skill) → Option Action
  | [] => none
  | (_, skill) :: rest =>
    if actor.mana ≥ skill.mana_cost then
      match findLiveTarget w actor actor_id with
      | some target => some (.useSkill actor_id (some target.entity_id) skill.skill_id)
      | none => skill_choice w actor actor_id rest
    else skill_choice w actor actor_id rest

def RuleBasedBrain.decide (b : RuleBasedBrain) (w : WorldState) (actor_id : String) :
    List Action :=
  match alookup w.entities actor_id with
  | none => []
  | some actor =>
    if actor.hp < 40 then [.rest actor_id none 10 5]
    else
      match skill_choice w actor actor_id w.skills with
      | some act => [act]
      | none =>
        match findLiveTarget w actor actor_id with
        | some target => [.attack actor_id (some target.entity_id) 8]
        | none =>
          match alookup w.areas actor.area with
          | some area =>
            match area.neighbors with
            | n :: _ => [.move actor_id none n]
            | [] => [.gather actor_id none b.gather_resource 1]
          | none => [.gather actor_id none b.gather_resource 1]

/-! ## Association-list lemmas -/

theorem alookup_aset_self {α : Type} (m : List (String × α)) (k : String) (v : α) :
    alookup (aset m k v) k = some v := by
  induction m with
  | nil => simp [aset, alookup]
  | cons kv rest ih =>
    obtain ⟨k', v'⟩ := kv
    by_cases h : k' = k
    · simp [aset, h, alookup]
    · simp [aset, h, alookup, ih]

theorem alookup_aset_ne {α : Type} (m : List (String × α)) (k k' : String) (v : α)
    (h : k' ≠ k) : alookup (aset m k v) k' = alookup m k' := by
  induction m with
  | nil =>
    have hk : ¬ k = k' := fun hh => h hh.symm
    simp [aset, alookup, hk]
  | cons kv rest ih =>
    obtain ⟨k0, v0⟩ := kv
    by_cases h0 : k0 = k
    · subst h0
      have hk : ¬ k0 = k' := fun hh => h hh.symm
      simp [aset, alookup, hk]
    · simp [aset, h0, alookup, ih]

theorem agetD_aset_self {α : Type} (m : List (String × α)) (k : String) (v d : α) :
    agetD (aset m k v) k d = v := by
  simp [agetD, alookup_aset_self]

theorem agetD_aset_ne {α : Type} (m : List (String × α)) (k k' : String) (v d : α)
    (h : k' ≠ k) : agetD (aset m k v) k' d = agetD m k' d := by
  simp [agetD, alookup_aset_ne _ _ _ _ h]

theorem mem_of_alookup {α : Type} (m : List (String × α)) (k : String) (v : α)
    (h : alookup m k = some v) : (k, v) ∈ m := by
  induction m with
  | nil => simp [alookup] at h
  | cons kv rest ih =>
    obtain ⟨k0, v0⟩ := kv
    by_cases h0 : k0 = k
    · subst h0
      simp [alookup] at h
      simp [h]
    · simp [alookup, h0] at h
      exact List.mem_cons_of_mem _ (ih h)

theorem mem_aset {α : Type} (m : List (String × α)) (k : String) (v : α) :
    ∀ kv ∈ aset m k v, kv = (k, v) ∨ kv ∈ m := by
  induction m with
  | nil => simp [aset]
  | cons kv0 rest ih =>
    obtain ⟨k0, v0⟩ := kv0
    intro kv hkv
    by_cases h0 : k0 = k
    · simp [aset, h0] at hkv
      rcases hkv with h | h
      · exact Or.inl (by simp [h])
      · exact Or.inr (List.mem_cons_of_mem _ h)
    · simp [aset, h0] at hkv
      rcases hkv with h | h
      · exact Or.inr (by simp [h])
      · rcases ih kv h with h' | h'
        · exact Or.inl h'
        · exact Or.inr (List.mem_cons_of_mem _ h')

theorem alookup_map_keyfun {α β : Type} (f : String → α → β) (m : List (String × α))
    (k : String) :
    alookup (m.map (fun kv => (kv.1, f kv.1 kv.2))) k = (alookup m k).map (f k) := by
  induction m with
  | nil => simp [alookup]
  | cons kv rest ih =>
    obtain ⟨k0, v0⟩ := kv
    by_cases h0 : k0 = k
    · subst h0
      simp [alookup]
    · simp [alookup, h0, ih]

theorem agetD_nonneg (m : List (String × Int)) (k : String)
    (h : ∀ kv ∈ m, 0 ≤ kv.2) : 0 ≤ agetD m k 0 := by
  unfold agetD
  cases hl : alookup m k with
  | none => simp
  | some v =>
    simpa using h (k, v) (mem_of_alookup _ _ _ hl)

theorem aset_nonneg (m : List (String × Int)) (k : String) (v : Int)
    (hm : ∀ kv ∈ m, 0 ≤ kv.2) (hv : 0 ≤ v) : ∀ kv ∈ aset m k v, 0 ≤ kv.2 := by
  intro kv hkv
  rcases mem_aset m k v kv hkv with h | h
  · simp [h, hv]
  · exact hm kv h

/-- Number of occurrences of a key in an association list (1 for a Python dict
entry, 0 for an absent key). -/
def keyCount {α : Type} (m : List (String × α)) (k : String) : Nat :=
  (m.filter (fun kv => kv.1 == k)).length

theorem keyCount_zero_of_alookup_none {α : Type} (m : List (String × α)) (k : String)
    (h : alookup m k = none) : keyCount m k = 0 := by
  induction m with
  | nil => rfl
  | cons kv rest ih =>
    obtain ⟨k0, v0⟩ := kv
    by_cases h0 : k0 = k
    · simp [alookup, h0] at h
    · simp [alookup, h0] at h
      have := ih h
      simp [keyCount, List.filter_cons, h0] at this ⊢
      exact this

theorem keyCount_aset_absent {α : Type} (m : List (String × α)) (k : String) (v : α)
    (h : alookup m k = none) : keyCount (aset m k v) k = 1 := by
  induction m with
  | nil => simp [aset, keyCount, List.filter_cons]
  | cons kv rest ih =>
    obtain ⟨k0, v0⟩ := kv
    by_cases h0 : k0 = k
    · simp [alookup, h0] at h
    · simp [alookup, h0] at h
      have := ih h
      simp [aset, h0, keyCount, List.filter_cons] at this ⊢
      exact this

/-! ## Projection lemmas for the world operations -/

theorem log_event_entities (w : WorldState) (k d : String) (a : Option String) :
    (w.log_event k d a).entities = w.entities := rfl

theorem log_event_clock (w : WorldState) (k d : String) (a : Option String) :
    (w.log_event k d a).clock = w.clock := rfl

theorem log_event_areas (w : WorldState) (k d : String) (a : Option String) :
    (w.log_event k d a).areas = w.areas := rfl

theorem log_event_quests (w : WorldState) (k d : String) (a : Option String) :
    (w.log_event k d a).quests = w.quests := rfl

theorem record_event_entities (w : WorldState) (k : String) :
    (w.record_event k).entities = w.entities := rfl

theorem record_event_clock (w : WorldState) (k : String) :
    (w.record_event k).clock = w.clock := rfl

theorem tick_clock (w : WorldState) : w.tick.clock = w.clock + 1 := rfl

theorem adjust_entities (w : WorldState) (an rn : String) (d : Int) :
    (w.adjust_area_resource an rn d).1.entities = w.entities := by
  unfold WorldState.adjust_area_resource
  cases alookup w.areas an <;> rfl

theorem adjust_clock (w : WorldState) (an rn : String) (d : Int) :
    (w.adjust_area_resource an rn d).1.clock = w.clock := by
  unfold WorldState.adjust_area_resource
  cases alookup w.areas an <;> rfl

theorem adjust_quests (w : WorldState) (an rn : String) (d : Int) :
    (w.adjust_area_resource an rn d).1.quests = w.quests := by
  unfold WorldState.adjust_area_resource
  cases alookup w.areas an <;> rfl

theorem update_qp_clock (w : WorldState) (e o : String) (a : Int) :
    (w.update_entity_quest_progress e o a).clock = w.clock := by
  unfold WorldState.update_entity_quest_progress
  cases alookup w.entities e <;> rfl

theorem update_qp_areas (w : WorldState) (e o : String) (a : Int) :
    (w.update_entity_quest_progress e o a).areas = w.areas := by
  unfold WorldState.update_entity_quest_progress
  cases alookup w.entities e <;> rfl

theorem update_qp_quests (w : WorldState) (e o : String) (a : Int) :
    (w.update_entity_quest_progress e o a).quests = w.quests := by
  unfold WorldState.update_entity_quest_progress
  cases alookup w.entities e <;> rfl

theorem assign_quests (w : WorldState) (e q : String) :
    (w.assign_quest e q).1.quests = w.quests := by
  unfold WorldState.assign_quest
  cases alookup w.entities e with
  | none => rfl
  | some ent =>
    cases alookup w.quests q with
    | none => rfl
    | some qq =>
      by_cases h : (alookup ent.quest_log q).isSome
      · simp [h]
      · simp [h]

theorem assign_clock (w : WorldState) (e q : String) :
    (w.assign_quest e q).1.clock = w.clock := by
  unfold WorldState.assign_quest
  cases alookup w.entities e with
  | none => rfl
  | some ent =>
    cases alookup w.quests q with
    | none => rfl
    | some qq =>
      by_cases h : (alookup ent.quest_log q).isSome
      · simp [h]
      · simp [h]

theorem assign_areas (w : WorldState) (e q : String) :
    (w.assign_quest e q).1.areas = w.areas := by
  unfold WorldState.assign_quest
  cases alookup w.entities e with
  | none => rfl
  | some ent =>
    cases alookup w.quests q with
    | none => rfl
    | some qq =>
      by_cases h : (alookup ent.quest_log q).isSome
      · simp [h]
      · simp [h]

theorem update_qp_none (w : WorldState) (aid o : String) (a : Int)
    (h : alookup w.entities aid = none) :
    w.update_entity_quest_progress aid o a = w := by
  simp [WorldState.update_entity_quest_progress, h]

theorem update_qp_entities_ne (w : WorldState) (aid eid o : String) (a : Int)
    (h : eid ≠ aid) :
    alookup (w.update_entity_quest_progress aid o a).entities eid = alookup w.entities eid := by
  unfold WorldState.update_entity_quest_progress
  cases he : alookup w.entities aid with
  | none => rfl
  | some e => exact alookup_aset_ne _ _ _ _ h

theorem update_qp_eq (w : WorldState) (aid o : String) (a : Int) (e : Entity)
    (h : alookup w.entities aid = some e) :
    alookup (w.update_entity_quest_progress aid o a).entities aid =
      some { e with quest_log := e.quest_log.map (fun kv => (kv.1, quest_step w o a kv.1 kv.2)) } := by
  simp [WorldState.update_entity_quest_progress, h, alookup_aset_self]

/-- The fields of an entity other than its quest log. -/
def coreFields (e : Entity) :
    String × String × String × Int × Int × List (String × Int) × List String :=
  (e.entity_id, e.name, e.area, e.hp, e.mana, e.inventory, e.tags)

theorem coreFields_update_qp (w : WorldState) (aid o : String) (a : Int) (eid : String) :
    (alookup (w.update_entity_quest_progress aid o a).entities eid).map coreFields
      = (alookup w.entities eid).map coreFields := by
  by_cases h : eid = aid
  · subst h
    cases he : alookup w.entities eid with
    | none => rw [update_qp_none _ _ _ _ he, he]
    | some e => rw [update_qp_eq _ _ _ _ _ he]; rfl
  · rw [update_qp_entities_ne _ _ _ _ _ h]

/-! ## Quest-progress record lemmas -/

theorem update_progress_eq (p : QuestProgress) (q : Quest) (o : String) (a : Int) :
    (p.update q o a).progress = aset p.progress o (agetD p.progress o 0 + a) := by
  cases hc : objectivesMet q.objectives (aset p.progress o (agetD p.progress o 0 + a)) <;>
    simp [QuestProgress.update, hc]

theorem update_quest_id (p : QuestProgress) (q : Quest) (o : String) (a : Int) :
    (p.update q o a).quest_id = p.quest_id := by
  cases hc : objectivesMet q.objectives (aset p.progress o (agetD p.progress o 0 + a)) <;>
    simp [QuestProgress.update, hc]

theorem update_completed_eq (p : QuestProgress) (q : Quest) (o : String) (a : Int) :
    (p.update q o a).completed =
      (objectivesMet q.objectives (aset p.progress o (agetD p.progress o 0 + a)) || p.completed) := by
  cases hc : objectivesMet q.objectives (aset p.progress o (agetD p.progress o 0 + a)) <;>
    simp [QuestProgress.update, hc]

theorem update_completed_mono (p : QuestProgress) (q : Quest) (o : String) (a : Int)
    (h : p.completed = true) : (p.update q o a).completed = true := by
  rw [update_completed_eq, h, Bool.or_true]

theorem completed_false_of_update (p : QuestProgress) (q : Quest) (o : String) (a : Int)
    (h : (p.update q o a).completed = false) : p.completed = false := by
  rw [update_completed_eq] at h
  exact (Bool.or_eq_false_iff.mp h).2

theorem quest_step_of_completed (w : WorldState) (o : String) (a : Int) (qid : String)
    (p : QuestProgress) (h : p.completed = true) : quest_step w o a qid p = p := by
  unfold quest_step
  cases alookup w.quests qid with
  | none => rfl
  | some q => simp [h]

theorem quest_step_eq (w : WorldState) (o : String) (a : Int) (qid : String)
    (p : QuestProgress) (q : Quest) (h : alookup w.quests qid = some q) :
    quest_step w o a qid p =
      if p.completed then p
      else if (alookup q.objectives o).isSome then p.update q o a
      else p := by
  simp [quest_step, h]

theorem completed_false_of_quest_step (w : WorldState) (o : String) (a : Int) (qid : String)
    (p : QuestProgress) (h : (quest_step w o a qid p).completed = false) :
    p.completed = false := by
  by_cases hc : p.completed = true
  · rw [quest_step_of_completed w o a qid p hc, hc] at h
    exact absurd h (by decide)
  · exact Bool.eq_false_iff.mpr hc

/-- The quest log of an entity, `[]` when the entity is missing. -/
def entityQuestLog (w : WorldState) (eid : String) : List (String × QuestProgress) :=
  match alookup w.entities eid with
  | some e => e.quest_log
  | none => []

theorem entityQuestLog_update_qp (w : WorldState) (aid o : String) (a : Int)
    (qid : String) (p : QuestProgress)
    (hp : alookup (entityQuestLog w aid) qid = some p) :
    alookup (entityQuestLog (w.update_entity_quest_progress aid o a) aid) qid
      = some (quest_step w o a qid p) := by
  unfold entityQuestLog at *
  cases he : alookup w.entities aid with
  | none => rw [he] at hp; simp [alookup] at hp
  | some e =>
    rw [he] at hp
    rw [update_qp_eq w aid o a e he]
    rw [alookup_map_keyfun (quest_step w o a) e.quest_log qid, hp]
    rfl

theorem quest_step_counts (w : WorldState) (o qid : String) (p : QuestProgress) (q : Quest)
    (hq : alookup w.quests qid = some q) (hpc : p.completed = false) (k : String)
    (hk : (alookup q.objectives k).isSome = true) :
    agetD (quest_step w o 1 qid p).progress k 0 =
      agetD p.progress k 0 + (if k = o then 1 else 0) := by
  rw [quest_step_eq w o 1 qid p q hq]
  rw [if_neg (by simp [hpc])]
  by_cases ho : (alookup q.objectives o).isSome = true
  · rw [if_pos ho, update_progress_eq]
    by_cases hko : k = o
    · subst hko
      rw [agetD_aset_self, if_pos rfl]
    · rw [agetD_aset_ne _ _ _ _ _ hko, if_neg hko, add_zero]
  · rw [if_neg ho]
    have hko : ¬ k = o := fun hh => ho (hh ▸ hk)
    rw [if_neg hko, add_zero]

/-- Folding quest-progress updates for `aid` over a list of objective keys:
the tracked record survives, completion is monotone, and while the record
stays uncompleted each objective key of its quest accumulates one unit per
occurrence of that key in the list. -/
theorem fold_update_tracks (aid : String) :
    ∀ (ks : List String) (w : WorldState) (qid : String) (p : QuestProgress) (q : Quest),
    alookup w.quests qid = some q →
    alookup (entityQuestLog w aid) qid = some p →
    ∃ p', alookup (entityQuestLog
        (ks.foldl (fun wa k => wa.update_entity_quest_progress aid k 1) w) aid) qid = some p' ∧
      (p.completed = true → p' = p) ∧
      (p'.completed = false →
        p.completed = false ∧
        ∀ k, (alookup q.objectives k).isSome = true →
          agetD p'.progress k 0 = agetD p.progress k 0 + (ks.count k : Int)) := by
  intro ks
  induction ks with
  | nil =>
    intro w qid p q hq hp
    exact ⟨p, hp, fun _ => rfl, fun h => ⟨h, fun k _ => by simp⟩⟩
  | cons k0 ks ih =>
    intro w qid p q hq hp
    rw [List.foldl_cons]
    have hq1 : alookup (w.update_entity_quest_progress aid k0 1).quests qid = some q := by
      rw [update_qp_quests]; exact hq
    have hp1 := entityQuestLog_update_qp w aid k0 1 qid p hp
    obtain ⟨p', hlook, hmono, hfalse⟩ :=
      ih (w.update_entity_quest_progress aid k0 1) qid (quest_step w k0 1 qid p) q hq1 hp1
    refine ⟨p', hlook, ?_, ?_⟩
    · intro hc
      rw [quest_step_of_completed w k0 1 qid p hc] at hmono
      exact hmono hc
    · intro hc
      obtain ⟨hstep, hcounts⟩ := hfalse hc
      have hpc : p.completed = false := completed_false_of_quest_step w k0 1 qid p hstep
      refine ⟨hpc, fun k hk => ?_⟩
      have h1 := hcounts k hk
      have h2 := quest_step_counts w k0 qid p q hq hpc k hk
      rw [h1, h2]
      by_cases hkk : k = k0
      · subst hkk
        rw [List.count_cons_self, if_pos rfl]
        push_cast
        ring
      · rw [List.count_cons_of_ne (fun hh => hkk (by simpa using hh)), if_neg hkk, add_zero]

/-- A fold preserves any property its step preserves. -/
theorem foldl_preserve {α σ : Type} (P : σ → Prop) (step : σ → α → σ)
    (h : ∀ s x, P s → P (step s x)) :
    ∀ (l : List α) (s : σ), P s → P (l.foldl step s) := by
  intro l
  induction l with
  | nil => intro s hs; exact hs
  | cons x xs ih =>
    intro s hs
    rw [List.foldl_cons]
    exact ih _ (h s x hs)

/-! ## Clock preservation (Claim C2 support) -/

/-- The action variants defined in `src/mmorpg_tools/actions.py` — everything
except the spec-modelled `useSkill`, whose effect callback may mutate any part
of the world's game data, the clock included. -/
def Action.srcVariant : Action → Prop
  | .useSkill _ _ _ => False
  | _ => True

theorem clock_fold_update (aid : String) (f : String → String) (l : List String)
    (w : WorldState) :
    (l.foldl (fun wa g => wa.update_entity_quest_progress aid (f g) 1) w).clock = w.clock :=
  foldl_preserve (fun s => s.clock = w.clock)
    (fun wa g => wa.update_entity_quest_progress aid (f g) 1)
    (fun s x hs => by simpa [update_qp_clock] using hs) l w rfl

theorem execute_clock : ∀ (a : Action) (w : WorldState), a.srcVariant →
    ((a.execute w).1).clock = w.clock := by
  intro a w h
  cases a with
  | move aid tid dest =>
    simp only [Action.execute]
    cases he : alookup w.entities aid with
    | none => rfl
    | some actor => simp [update_qp_clock, log_event_clock]
  | attack aid tid d =>
    simp only [Action.execute]
    cases he : alookup w.entities (tid.getD "") with
    | none => rfl
    | some target =>
      dsimp only
      split
      · simp [log_event_clock]
      · simp [log_event_clock, update_qp_clock, clock_fold_update aid (fun g => "defeat_tag:" ++ g)]
  | gather aid tid res amt =>
    simp only [Action.execute]
    cases he : alookup w.entities aid with
    | none => rfl
    | some actor =>
      dsimp only
      cases ha : alookup w.areas actor.area with
      | none => rfl
      | some area =>
        dsimp only
        split
        · rfl
        · simp [update_qp_clock, log_event_clock, adjust_clock]
  | craft aid tid recipe output reqs =>
    simp only [Action.execute]
    cases he : alookup w.entities aid with
    | none => rfl
    | some actor =>
      dsimp only
      split
      · simp [update_qp_clock, log_event_clock]
      · rfl
  | chat aid tid msg =>
    simp only [Action.execute]
    cases he : alookup w.entities aid with
    | none => rfl
    | some actor => simp [log_event_clock]
  | observe aid tid =>
    simp only [Action.execute]
    cases he : alookup w.entities aid with
    | none => rfl
    | some actor =>
      dsimp only
      cases ha : alookup w.areas actor.area with
      | none => rfl
      | some area => simp [log_event_clock]
  | rest aid tid hr mr =>
    simp only [Action.execute]
    cases he : alookup w.entities aid with
    | none => rfl
    | some actor => simp [log_event_clock]
  | acceptQuest aid tid qid =>
    simp only [Action.execute]
    split
    · simp [log_event_clock, assign_clock]
    · rfl
  | useSkill aid tid sid => exact h.elim

theorem apply_action_clock (w : WorldState) (a : Action) (h : a.srcVariant) :
    ((GameEngine.apply_action w a).1).clock = w.clock := by
  unfold GameEngine.apply_action
  split
  · exact execute_clock a w h
  · simp [record_event_clock]

theorem apply_actions_clock :
    ∀ (acts : List Action), (∀ a ∈ acts, a.srcVariant) →
      ∀ (w : WorldState) (rs : List ActionResult),
        ((GameEngine.apply_actions w rs acts).1).clock = w.clock := by
  intro acts
  induction acts with
  | nil => intro _ w rs; rfl
  | cons a rest ih =>
    intro h w rs
    simp only [GameEngine.apply_actions]
    rw [ih (fun x hx => h x (List.mem_cons_of_mem _ hx)),
        apply_action_clock w a (h a (List.mem_cons_self _ _))]

theorem step_actors_clock :
    ∀ (bs : List (String × Brain)),
      (∀ b ∈ bs, ∀ (w1 : WorldState) (eid : String), ∀ a ∈ b.2 w1 eid, a.srcVariant) →
      ∀ (w : WorldState) (rs : List ActionResult),
        ((GameEngine.step_actors w rs bs).1).clock = w.clock := by
  intro bs
  induction bs with
  | nil => intro _ w rs; rfl
  | cons b rest ih =>
    obtain ⟨eid, brain⟩ := b
    intro h w rs
    simp only [GameEngine.step_actors]
    rw [ih (fun x hx => h x (List.mem_cons_of_mem _ hx)),
        apply_actions_clock (brain w eid) (h (eid, brain) (List.mem_cons_self _ _) w eid)]

/-! ## Claim C1 -/

/-- The single event `GameEngine.apply_action` appends when validation fails. -/
def invalidEvent (w : WorldState) (a : Action) : WorldEvent :=
  { tick := w.clock, kind := "action_invalid:" ++ a.kindName ++ ":" ++ a.actor_id,
    detail := "", actor_id := none }

/-- Claim C1: for every world and action whose `can_execute` is false,
`GameEngine.apply_action` appends exactly one `action_invalid:<ActionKind>:<actorId>`
event (stamped with the current tick) to the event log, returns an error result,
and performs no other mutation — in particular it never calls `execute`
(`WorldState.record_event` is modelled from the spec). -/
theorem apply_action_invalid_logs (w : WorldState) (a : Action)
    (h : a.can_execute w = false) :
    GameEngine.apply_action w a =
      ({ w with events := w.events ++ [invalidEvent w a] },
       { status := "error", detail := "invalid_action" }) := by
  unfold GameEngine.apply_action
  rw [if_neg (by simp [h])]
  rfl

/-- A world with no entities, used to exercise the invalid-action path. -/
def ghostWorld : WorldState := {}

/-- Witness for C1: a `Move` by a missing actor is invalid and gets logged. -/
theorem apply_action_invalid_logs_witness :
    GameEngine.apply_action ghostWorld (.move "ghost" none "X") =
      ({ ghostWorld with events := ghostWorld.events ++
          [invalidEvent ghostWorld (.move "ghost" none "X")] },
       { status := "error", detail := "invalid_action" }) :=
  apply_action_invalid_logs ghostWorld (.move "ghost" none "X") rfl

/-! ## Claim C2 -/

def skillUser : Entity := { entity_id := "u", name := "Uma", area := "A" }

/-- A registered skill whose effect advances the world clock — a behaviour the
spec's capability interface permits, since the callback receives the world. -/
def boomSkill : Skill :=
  { skill_id := "boom", name := "Boom", mana_cost := 0,
    effect := fun b _ _ => ({ b with clock := b.clock + 1 }, "boom") }

def skillWorld : WorldState :=
  { entities := [("u", skillUser)], skills := [("boom", boomSkill)] }

def skillBrains : List (String × Brain) :=
  [("u", fun _ _ => [Action.useSkill "u" none "boom"])]

/-- Claim C2 counterexample: with a registered skill whose effect callback
advances the clock, one `step()` that applies a single valid UseSkill moves
the clock from 0 to 2, not by exactly 1. -/
theorem step_clock_cex :
    skillWorld.clock = 0 ∧
    (GameEngine.step skillWorld skillBrains).1.clock = skillWorld.clock + 2 ∧
    (GameEngine.step skillWorld skillBrains).1.clock ≠ skillWorld.clock + 1 := by
  refine ⟨rfl, rfl, by decide⟩

/-- Claim C2 (amended): one call to `GameEngine.step` increases the world
clock by exactly 1 — however many actions the brains propose and however many
fail validation or execution — provided the proposed actions are among the
eight variants defined in `src/mmorpg_tools/actions.py`; a UseSkill may break
the guarantee because its effect callback can itself advance the clock. -/
theorem step_increments_clock (w : WorldState) (brains : List (String × Brain))
    (hsrc : ∀ b ∈ brains, ∀ (w1 : WorldState) (eid : String), ∀ a ∈ b.2 w1 eid,
      a.srcVariant) :
    (GameEngine.step w brains).1.clock = w.clock + 1 := by
  unfold GameEngine.step
  rw [tick_clock, step_actors_clock brains hsrc]

def chatBrains : List (String × Brain) :=
  [("p", fun _ _ => [Action.chat "p" none "hi"])]

/-- Witness for the amended C2: a brain proposing one (invalid) src-variant
action still advances the clock by exactly 1. -/
theorem step_increments_clock_witness :
    (GameEngine.step ghostWorld chatBrains).1.clock = ghostWorld.clock + 1 :=
  step_increments_clock ghostWorld chatBrains
    (by
      intro b hb w1 eid a ha
      simp only [chatBrains, List.mem_singleton] at hb
      subst hb
      simp only [List.mem_singleton] at ha
      subst ha
      trivial)

/-! ## Claim C3 -/

def gatherArea : Area := { name := "Village", description := "start", resources := [("wood", 0)] }

def gatherActor : Entity := { entity_id := "a", name := "Alice", area := "Village" }

def gatherWorld : WorldState :=
  { areas := [("Village", gatherArea)], entities := [("a", gatherActor)] }

/-- Claim C3 counterexample: `Gather` does not override `can_execute`, so in a
world whose area holds 0 of the requested resource (and in fact for any world
where the actor merely exists) `can_execute` still returns true; the engine
therefore does call `Gather.execute`, which rejects with `resource_depleted`. -/
theorem gather_can_execute_cex :
    Action.can_execute (.gather "a" none "wood" 1) gatherWorld = true ∧
    alookup gatherWorld.areas "Village" = some gatherArea ∧
    agetD gatherArea.resources "wood" 0 = 0 ∧
    Action.execute (.gather "a" none "wood" 1) gatherWorld =
      (gatherWorld, { status := "error", detail := "resource_depleted" }) :=
  ⟨rfl, rfl, rfl, rfl⟩

/-- Claim C3 (amended): `Gather.can_execute` is the inherited base-class check —
true iff the actor exists; area existence and resource positivity are checked
only inside `execute`, which returns `area_not_found` / `resource_depleted`
without mutating the world when they fail. -/
theorem gather_can_execute_amended (w : WorldState) (aid : String) (tid : Option String)
    (res : String) (amt : Int) :
    Action.can_execute (.gather aid tid res amt) w = (alookup w.entities aid).isSome ∧
    (∀ e, alookup w.entities aid = some e →
      (alookup w.areas e.area = none →
        Action.execute (.gather aid tid res amt) w =
          (w, { status := "error", detail := "area_not_found" })) ∧
      (∀ ar, alookup w.areas e.area = some ar → agetD ar.resources res 0 ≤ 0 →
        Action.execute (.gather aid tid res amt) w =
          (w, { status := "error", detail := "resource_depleted" }))) := by
  refine ⟨rfl, fun e he => ⟨fun ha => ?_, fun ar ha hr => ?_⟩⟩
  · simp only [Action.execute, he, ha]
  · simp only [Action.execute, he, ha]
    rw [if_pos hr]

def lostActor : Entity := { entity_id := "b", name := "Bob", area := "Nowhere" }

def lostWorld : WorldState := { entities := [("b", lostActor)] }

/-- Witness for the amended C3 at two concrete inputs: a missing area and a
depleted resource both make `execute` reject without mutation. -/
theorem gather_can_execute_amended_witness :
    Action.execute (.gather "b" none "wood" 1) lostWorld =
      (lostWorld, { status := "error", detail := "area_not_found" }) ∧
    Action.execute (.gather "a" none "wood" 1) gatherWorld =
      (gatherWorld, { status := "error", detail := "resource_depleted" }) :=
  ⟨((gather_can_execute_amended lostWorld "b" none "wood" 1).2 lostActor rfl).1 rfl,
   ((gather_can_execute_amended gatherWorld "a" none "wood" 1).2 gatherActor rfl).2
     gatherArea rfl (by decide)⟩

/-! ## Claim C5 -/

/-- The completion flag of the progress record an entity holds for a quest
(false when the entity or record is missing). -/
def questCompleted (w : WorldState) (eid qid : String) : Bool :=
  match alookup (entityQuestLog w eid) qid with
  | some p => p.completed
  | none => false

/-- Whether an entity holds a progress record for a quest. -/
def hasQuestRecord (w : WorldState) (eid qid : String) : Bool :=
  (alookup (entityQuestLog w eid) qid).isSome

def emptyQuest : Quest := { quest_id := "q0", title := "t", description := "d", objectives := [] }

def questEntity : Entity := { entity_id := "e", name := "Eve", area := "A" }

def questWorld : WorldState :=
  { entities := [("e", questEntity)], quests := [("q0", emptyQuest)] }

def questWorld1 : WorldState := (questWorld.assign_quest "e" "q0").1

/-- Claim C5 counterexample: a freshly assigned QuestProgress for a quest with
an empty objectives map has `completed = false`, although every objective key
of the parent quest (vacuously) has progress at least the required count —
so "completed is true exactly when every objective is met" fails. -/
theorem quest_completed_cex :
    (questWorld.assign_quest "e" "q0").2 = true ∧
    hasQuestRecord questWorld1 "e" "q0" = true ∧
    questCompleted questWorld1 "e" "q0" = false ∧
    (alookup questWorld1.quests "q0").map Quest.objectives = some [] := by
  decide

/-- Claim C5 (amended): `completed` is monotonic — a record completed in the
world stays completed after any `update_entity_quest_progress` call — and after
a `QuestProgress.update` the flag is true iff all objectives are met by the
updated progress or the flag was already true; a fresh record however starts
with `completed = false` even when the quest has no objectives. -/
theorem quest_completed_amended (p : QuestProgress) (q : Quest) (o : String) (a : Int)
    (w : WorldState) (eid oj : String) (am : Int) (qid : String) :
    ((p.update q o a).completed = true ↔
      (objectivesMet q.objectives (p.update q o a).progress = true ∨ p.completed = true)) ∧
    (questCompleted w eid qid = true →
      questCompleted (w.update_entity_quest_progress eid oj am) eid qid = true) := by
  constructor
  · rw [update_completed_eq, update_progress_eq]
    simp [Bool.or_eq_true]
  · intro h
    unfold questCompleted at h ⊢
    cases hl : alookup (entityQuestLog w eid) qid with
    | none => rw [hl] at h; exact absurd h (by decide)
    | some p0 =>
      rw [hl] at h
      rw [entityQuestLog_update_qp w eid oj am qid p0 hl]
      rw [quest_step_of_completed w oj am qid p0 h]
      exact h

def doneProgress : QuestProgress := { quest_id := "q0", progress := [], completed := true }

def doneEntity : Entity :=
  { entity_id := "e", name := "Eve", area := "A", quest_log := [("q0", doneProgress)] }

def doneWorld : WorldState :=
  { entities := [("e", doneEntity)], quests := [("q0", emptyQuest)] }

/-- Witness for the amended C5: a completed record stays completed through a
concrete progress update. -/
theorem quest_completed_amended_witness :
    questCompleted doneWorld "e" "q0" = true ∧
    questCompleted (doneWorld.update_entity_quest_progress "e" "k" 1) "e" "q0" = true :=
  ⟨by decide,
   (quest_completed_amended doneProgress emptyQuest "k" 1 doneWorld "e" "k" 1 "q0").2 (by decide)⟩

/-! ## Claim C8 -/

/-- The fresh record `assign_quest` creates: empty progress, not completed. -/
def freshProgress (qid : String) : QuestProgress :=
  { quest_id := qid, progress := [], completed := false }

/-- Claim C8: `assign_quest` returns false and changes nothing when the entity
or quest is missing or a record already exists; on success it creates exactly
one fresh QuestProgress (empty progress, completed = false); a second call for
the same pair returns false and changes nothing. -/
theorem assign_quest_spec (w : WorldState) (eid qid : String) :
    ((alookup w.entities eid = none ∨ alookup w.quests qid = none ∨
        (∃ e, alookup w.entities eid = some e ∧ (alookup e.quest_log qid).isSome = true)) →
      w.assign_quest eid qid = (w, false)) ∧
    (∀ e q0, alookup w.entities eid = some e → alookup w.quests qid = some q0 →
      alookup e.quest_log qid = none →
      (w.assign_quest eid qid).2 = true ∧
      (∃ e1, alookup (w.assign_quest eid qid).1.entities eid = some e1 ∧
        e1.quest_log = aset e.quest_log qid (freshProgress qid) ∧
        alookup e1.quest_log qid = some (freshProgress qid) ∧
        keyCount e1.quest_log qid = 1)) ∧
    ((w.assign_quest eid qid).2 = true →
      (w.assign_quest eid qid).1.assign_quest eid qid = ((w.assign_quest eid qid).1, false)) := by
  refine ⟨?_, ?_, ?_⟩
  · intro h
    rcases h with h | h | ⟨e, he, hr⟩
    · cases hq : alookup w.quests qid <;> simp [WorldState.assign_quest, h, hq]
    · cases he : alookup w.entities eid <;> simp [WorldState.assign_quest, h, he]
    · cases hq : alookup w.quests qid <;> simp [WorldState.assign_quest, he, hq, hr]
  · intro e q0 he hq hr
    have hr' : (alookup e.quest_log qid).isSome = false := by simp [hr]
    refine ⟨by simp [WorldState.assign_quest, he, hq, hr'], ?_⟩
    refine ⟨{ e with quest_log := aset e.quest_log qid (freshProgress qid) }, ?_, rfl, ?_, ?_⟩
    · simp [WorldState.assign_quest, freshProgress, he, hq, hr', alookup_aset_self]
    · exact alookup_aset_self _ _ _
    · exact keyCount_aset_absent _ _ _ hr
  · intro hb
    cases he : alookup w.entities eid with
    | none =>
      have hw : w.assign_quest eid qid = (w, false) := by
        cases hq : alookup w.quests qid <;> simp [WorldState.assign_quest, he, hq]
      rw [hw] at hb
      simp at hb
    | some e =>
      cases hq : alookup w.quests qid with
      | none =>
        have hw : w.assign_quest eid qid = (w, false) := by
          simp [WorldState.assign_quest, he, hq]
        rw [hw] at hb
        simp at hb
      | some q0 =>
        by_cases hr : (alookup e.quest_log qid).isSome = true
        · have hw : w.assign_quest eid qid = (w, false) := by
            simp [WorldState.assign_quest, he, hq, hr]
          rw [hw] at hb
          simp at hb
        · have hr' : (alookup e.quest_log qid).isSome = false := by simpa using hr
          have hset : alookup (w.assign_quest eid qid).1.entities eid =
              some { e with quest_log := aset e.quest_log qid (freshProgress qid) } := by
            simp [WorldState.assign_quest, freshProgress, he, hq, hr', alookup_aset_self]
          have hqq : alookup (w.assign_quest eid qid).1.quests qid = some q0 := by
            rw [assign_quests]; exact hq
          have hrec : (alookup (aset e.quest_log qid (freshProgress qid)) qid).isSome = true := by
            simp [alookup_aset_self]
          obtain ⟨w1, hw1⟩ : ∃ w1, (w.assign_quest eid qid).1 = w1 := ⟨_, rfl⟩
          rw [hw1] at hset hqq ⊢
          simp [WorldState.assign_quest, hset, hqq, hrec, freshProgress, alookup_aset_self]

def freshQuest : Quest :=
  { quest_id := "q2", title := "t2", description := "d2", objectives := [("travel:B", 1)] }

def freshEntity : Entity := { entity_id := "f", name := "Fay", area := "A" }

def freshWorld : WorldState :=
  { entities := [("f", freshEntity)], quests := [("q2", freshQuest)] }

/-- Witness for C8: assigning a concrete quest succeeds with exactly one fresh
record, and the second assignment on the resulting world returns false and
leaves it unchanged. -/
theorem assign_quest_spec_witness :
    (freshWorld.assign_quest "f" "q2").2 = true ∧
    (∃ e1, alookup (freshWorld.assign_quest "f" "q2").1.entities "f" = some e1 ∧
      e1.quest_log = aset freshEntity.quest_log "q2" (freshProgress "q2") ∧
      alookup e1.quest_log "q2" = some (freshProgress "q2") ∧
      keyCount e1.quest_log "q2" = 1) ∧
    (freshWorld.assign_quest "f" "q2").1.assign_quest "f" "q2" =
      ((freshWorld.assign_quest "f" "q2").1, false) := by
  obtain ⟨h1, h2, h3⟩ := assign_quest_spec freshWorld "f" "q2"
  obtain ⟨hb, hrec⟩ := h2 freshEntity freshQuest rfl rfl rfl
  exact ⟨hb, hrec, h3 hb⟩

/-! ## Claim C9 -/

theorem skill_choice_none (w : WorldState) (actor : Entity) (aid : String)
    (h : findLiveTarget w actor aid = none) :
    ∀ l, skill_choice w actor aid l = none := by
  intro l
  induction l with
  | nil => rfl
  | cons kv rest ih =>
    obtain ⟨k, skill⟩ := kv
    by_cases hm : actor.mana ≥ skill.mana_cost
    · simp [skill_choice, hm, h, ih]
    · simp [skill_choice, hm, ih]

/-- Claim C9 (amended): when the actor exists, is at or above the rest
threshold, and no live co-located distinct target exists (which also disables
the skill rule), the reference brain proposes Move to the first neighbor
whenever the current area exists and has a neighbor — regardless of the area's
resource quantities — and proposes Gather only as the final fallback, when the
area is missing or has no neighbors, again without checking the resource. -/
theorem brain_move_before_gather (b : RuleBasedBrain) (w : WorldState) (aid : String)
    (actor : Entity) (he : alookup w.entities aid = some actor)
    (hhp : ¬ (actor.hp < 40)) (ht : findLiveTarget w actor aid = none) :
    (alookup w.areas actor.area = none →
      b.decide w aid = [.gather aid none b.gather_resource 1]) ∧
    (∀ area, alookup w.areas actor.area = some area →
      (area.neighbors = [] → b.decide w aid = [.gather aid none b.gather_resource 1]) ∧
      (∀ n rest, area.neighbors = n :: rest → b.decide w aid = [.move aid none n])) := by
  have hsc := skill_choice_none w actor aid ht w.skills
  refine ⟨fun ha => ?_, fun area ha => ⟨fun hn => ?_, fun n rest hn => ?_⟩⟩
  · simp [RuleBasedBrain.decide, he, hhp, hsc, ht, ha]
  · simp [RuleBasedBrain.decide, he, hhp, hsc, ht, ha, hn]
  · simp [RuleBasedBrain.decide, he, hhp, hsc, ht, ha, hn]

def brainArea : Area :=
  { name := "A", description := "a", neighbors := ["B"], resources := [("bois", 5)] }

def brainActor : Entity := { entity_id := "p", name := "P", area := "A" }

def brainWorld : WorldState :=
  { areas := [("A", brainArea)], entities := [("p", brainActor)] }

/-- Claim C9 counterexample: the actor's area holds 5 > 0 of the configured
gather resource ("bois") and no higher-priority rule applies, yet the brain
proposes Move to the first neighbor, not Gather — the code checks neighbors
before resources and never inspects the resource quantity. -/
theorem brain_gather_cex :
    0 < agetD brainArea.resources "bois" 0 ∧
    RuleBasedBrain.decide {} brainWorld "p" = [.move "p" none "B"] ∧
    RuleBasedBrain.decide {} brainWorld "p" ≠ [.gather "p" none "bois" 1] := by
  refine ⟨by decide, rfl, by decide⟩

/-- Witness for the amended C9 at the same concrete world: with the gather
resource available, the brain still proposes Move to the first neighbor. -/
theorem brain_move_before_gather_witness :
    RuleBasedBrain.decide {} brainWorld "p" = [.move "p" none "B"] :=
  ((brain_move_before_gather {} brainWorld "p" brainActor rfl (by decide) rfl).2
    brainArea rfl).2 "B" [] rfl

/-! ## Entity-projection preservation through quest updates -/

theorem proj_update_qp {β : Type} (proj : Entity → β)
    (hproj : ∀ (e : Entity) (ql : List (String × QuestProgress)),
      proj { e with quest_log := ql } = proj e)
    (w : WorldState) (aid o : String) (a : Int) (eid : String) :
    (alookup (w.update_entity_quest_progress aid o a).entities eid).map proj
      = (alookup w.entities eid).map proj := by
  by_cases h : eid = aid
  · subst h
    cases he : alookup w.entities eid with
    | none => rw [update_qp_none _ _ _ _ he, he]
    | some e => rw [update_qp_eq _ _ _ _ _ he]; simp [hproj]
  · rw [update_qp_entities_ne _ _ _ _ _ h]

theorem proj_fold_update {β : Type} (proj : Entity → β)
    (hproj : ∀ (e : Entity) (ql : List (String × QuestProgress)),
      proj { e with quest_log := ql } = proj e)
    (f : String → String) (aid eid : String) (l : List String) (w : WorldState) :
    (alookup (List.foldl (fun wa g => wa.update_entity_quest_progress aid (f g) 1) w l).entities
        eid).map proj
      = (alookup w.entities eid).map proj :=
  foldl_preserve (fun s => (alookup s.entities eid).map proj = (alookup w.entities eid).map proj)
    (fun wa g => wa.update_entity_quest_progress aid (f g) 1)
    (fun s x hs => by simpa [proj_update_qp proj hproj] using hs) l w rfl

/-- The hp of the attacked entity after `Attack.execute`: always the clamped
value, in both the survive and the kill branch. -/
theorem attack_execute_hp (w : WorldState) (aid : String) (tid : Option String) (d : Int)
    (t : Entity) (ht : alookup w.entities (tid.getD "") = some t) :
    (alookup ((Action.execute (.attack aid tid d) w).1).entities (tid.getD "")).map Entity.hp
      = some (max 0 (t.hp - d)) := by
  simp only [Action.execute, ht]
  split
  · simp [WorldState.log_event, alookup_aset_self]
  · rw [proj_fold_update Entity.hp (fun _ _ => rfl) (fun g => "defeat_tag:" ++ g)]
    rw [proj_update_qp Entity.hp (fun _ _ => rfl)]
    simp [WorldState.log_event, alookup_aset_self]

/-! ## Claim C10 -/

/-- Claim C10: Attack never requires the attacker and target to be distinct —
for any existing entity with hp > 0, a self-attack passes `can_execute` and
its execution clamps the entity's own hp to `max 0 (hp - damage)`. -/
theorem attack_self_allowed (w : WorldState) (eid : String) (e : Entity) (d : Int)
    (he : alookup w.entities eid = some e) (hhp : 0 < e.hp) :
    Action.can_execute (.attack eid (some eid) d) w = true ∧
    ∃ e1, alookup ((Action.execute (.attack eid (some eid) d) w).1).entities eid = some e1 ∧
      e1.hp = max 0 (e.hp - d) := by
  constructor
  · simp [Action.can_execute, he, Entity.is_alive, hhp]
  · have hmap : (alookup ((Action.execute (.attack eid (some eid) d) w).1).entities eid).map
        Entity.hp = some (max 0 (e.hp - d)) := attack_execute_hp w eid (some eid) d e he
    cases hl : alookup ((Action.execute (.attack eid (some eid) d) w).1).entities eid with
    | none => rw [hl] at hmap; simp at hmap
    | some e1 =>
      rw [hl] at hmap
      exact ⟨e1, rfl, by simpa using hmap⟩

def selfActor : Entity := { entity_id := "s", name := "Sol", area := "A", hp := 10 }

def selfWorld : WorldState := { entities := [("s", selfActor)] }

/-- Witness for C10: a concrete self-attack is valid and damages the actor. -/
theorem attack_self_allowed_witness :
    Action.can_execute (.attack "s" (some "s") 4) selfWorld = true ∧
    ∃ e1, alookup ((Action.execute (.attack "s" (some "s") 4) selfWorld).1).entities "s" = some e1 ∧
      e1.hp = max 0 (selfActor.hp - 4) :=
  attack_self_allowed selfWorld "s" selfActor 4 rfl (by decide)

/-! ## Claim C7 -/

/-- The data-model invariant: every resource quantity of every area is ≥ 0. -/
def areasNonneg (w : WorldState) : Prop :=
  ∀ akv ∈ w.areas, ∀ rkv ∈ akv.2.resources, (0 : Int) ≤ rkv.2

theorem adjust_preserves_nonneg (w : WorldState) (an rn : String) (d : Int)
    (h : areasNonneg w) : areasNonneg (w.adjust_area_resource an rn d).1 := by
  unfold WorldState.adjust_area_resource
  cases ha : alookup w.areas an with
  | none => exact h
  | some area =>
    dsimp only
    intro akv hm
    rcases mem_aset _ _ _ akv hm with hk | hk
    · rw [hk]
      intro rkv hrm
      rcases mem_aset _ _ _ rkv hrm with hk2 | hk2
      · rw [hk2]
        exact le_max_left 0 _
      · exact h (an, area) (mem_of_alookup _ _ _ ha) rkv hk2
    · exact h akv hk

/-- Claim C7: a successful Gather adds exactly `min requested available` to the
actor's inventory, never more than the pre-gather availability, and leaves the
area's quantity at the clamped non-negative value; `adjust_area_resource`
preserves resource non-negativity across any sequence of calls and is a no-op
returning 0 for a missing area. -/
theorem gather_conservation (w : WorldState) (aid : String) (tid : Option String)
    (res : String) (amt : Int) :
    (∀ actor area, alookup w.entities aid = some actor →
      alookup w.areas actor.area = some area →
      0 < agetD area.resources res 0 →
      (∃ actor1, alookup ((Action.execute (.gather aid tid res amt) w).1).entities aid
          = some actor1 ∧
        agetD actor1.inventory res 0
          = agetD actor.inventory res 0 + min amt (agetD area.resources res 0) ∧
        min amt (agetD area.resources res 0) ≤ agetD area.resources res 0) ∧
      (∃ area1, alookup ((Action.execute (.gather aid tid res amt) w).1).areas actor.area
          = some area1 ∧
        agetD area1.resources res 0
          = max 0 (agetD area.resources res 0 - min amt (agetD area.resources res 0)) ∧
        0 ≤ agetD area1.resources res 0)) ∧
    (∀ an rn d, areasNonneg w → areasNonneg (w.adjust_area_resource an rn d).1) ∧
    (∀ calls : List (String × String × Int), areasNonneg w →
      areasNonneg (List.foldl (fun wa c => (wa.adjust_area_resource c.1 c.2.1 c.2.2).1) w calls)) ∧
    (∀ an rn d, alookup w.areas an = none → w.adjust_area_resource an rn d = (w, 0)) := by
  refine ⟨?_, ?_, ?_, ?_⟩
  · intro actor area he ha hr
    have hinv : (alookup ((Action.execute (.gather aid tid res amt) w).1).entities aid).map
        Entity.inventory = some (aset actor.inventory res
          (agetD actor.inventory res 0 + min amt (agetD area.resources res 0))) := by
      simp only [Action.execute, he, ha]
      rw [if_neg (by omega)]
      dsimp only
      rw [proj_update_qp Entity.inventory (fun _ _ => rfl)]
      simp [WorldState.log_event, alookup_aset_self]
    have harea : (alookup ((Action.execute (.gather aid tid res amt) w).1).areas actor.area).map
        Area.resources = some (aset area.resources res
          (max 0 (agetD area.resources res 0 - min amt (agetD area.resources res 0)))) := by
      simp only [Action.execute, he, ha]
      rw [if_neg (by omega)]
      dsimp only
      rw [update_qp_areas]
      simp only [WorldState.log_event]
      unfold WorldState.adjust_area_resource
      rw [ha]
      dsimp only
      rw [alookup_aset_self]
      rw [← sub_eq_add_neg]
      rfl
    constructor
    · cases hl : alookup ((Action.execute (.gather aid tid res amt) w).1).entities aid with
      | none => rw [hl] at hinv; simp at hinv
      | some actor1 =>
        rw [hl] at hinv
        refine ⟨actor1, rfl, ?_, min_le_right _ _⟩
        have : actor1.inventory = aset actor.inventory res
            (agetD actor.inventory res 0 + min amt (agetD area.resources res 0)) := by
          simpa using hinv
        rw [this, agetD_aset_self]
    · cases hl : alookup ((Action.execute (.gather aid tid res amt) w).1).areas actor.area with
      | none => rw [hl] at harea; simp at harea
      | some area1 =>
        rw [hl] at harea
        have : area1.resources = aset area.resources res
            (max 0 (agetD area.resources res 0 - min amt (agetD area.resources res 0))) := by
          simpa using harea
        refine ⟨area1, rfl, ?_, ?_⟩
        · rw [this, agetD_aset_self]
        · rw [this, agetD_aset_self]
          exact le_max_left 0 _
  · intro an rn d h
    exact adjust_preserves_nonneg w an rn d h
  · intro calls h
    exact foldl_preserve areasNonneg _
      (fun s c hs => adjust_preserves_nonneg s c.1 c.2.1 c.2.2 hs) calls w h
  · intro an rn d h
    simp [WorldState.adjust_area_resource, h]

def forestArea : Area :=
  { name := "F", description := "forest", resources := [("bois", 5)] }

def forestActor : Entity := { entity_id := "g", name := "Gil", area := "F" }

def forestWorld : WorldState :=
  { areas := [("F", forestArea)], entities := [("g", forestActor)] }

/-- Witness for C7: gathering 2 bois from a stock of 5 adds exactly 2 to the
inventory and leaves the area at 3; a missing-area adjustment is a no-op. -/
theorem gather_conservation_witness :
    ((∃ actor1, alookup ((Action.execute (.gather "g" none "bois" 2) forestWorld).1).entities "g"
        = some actor1 ∧
      agetD actor1.inventory "bois" 0
        = agetD forestActor.inventory "bois" 0 + min 2 (agetD forestArea.resources "bois" 0) ∧
      min 2 (agetD forestArea.resources "bois" 0) ≤ agetD forestArea.resources "bois" 0) ∧
    (∃ area1, alookup ((Action.execute (.gather "g" none "bois" 2) forestWorld).1).areas "F"
        = some area1 ∧
      agetD area1.resources "bois" 0
        = max 0 (agetD forestArea.resources "bois" 0 - min 2 (agetD forestArea.resources "bois" 0)) ∧
      0 ≤ agetD area1.resources "bois" 0)) ∧
    forestWorld.adjust_area_resource "Nowhere" "bois" (-3) = (forestWorld, 0) := by
  obtain ⟨h1, _, _, h4⟩ := gather_conservation forestWorld "g" none "bois" 2
  exact ⟨h1 forestActor forestArea rfl rfl (by decide), h4 "Nowhere" "bois" (-3) rfl⟩

/-! ## Claim C4 -/

/-- The entity attribute bounds of the data model: hp in 0..100, mana in
0..50, every inventory quantity non-negative. -/
def Entity.inBounds (e : Entity) : Prop :=
  0 ≤ e.hp ∧ e.hp ≤ 100 ∧ 0 ≤ e.mana ∧ e.mana ≤ 50 ∧ ∀ kv ∈ e.inventory, (0 : Int) ≤ kv.2

def WorldState.entitiesInBounds (w : WorldState) : Prop :=
  ∀ kv ∈ w.entities, kv.2.inBounds

/-- The discipline under which bounds are preserved: non-negative damage,
gather amount and rest restores; craft requirements with unique keys (Python
dict semantics) and quantities ≥ 1 (a quantity ≤ 0 for an item the actor
lacks makes the Python `-=` raise KeyError); and no `useSkill`, whose
spec-described effect callback may move entities out of bounds at will. -/
def Action.paramsOK : Action → Prop
  | .attack _ _ d => 0 ≤ d
  | .gather _ _ _ amt => 0 ≤ amt
  | .craft _ _ _ _ reqs => (∀ kv ∈ reqs, 1 ≤ kv.2) ∧ (reqs.map Prod.fst).Nodup
  | .rest _ _ hr mr => 0 ≤ hr ∧ 0 ≤ mr
  | .useSkill _ _ _ => False
  | _ => True

theorem inBounds_set_quest_log (e : Entity) (ql : List (String × QuestProgress)) :
    Entity.inBounds { e with quest_log := ql } ↔ e.inBounds := Iff.rfl

theorem inBounds_of_lookup (w : WorldState) (k : String) (e : Entity)
    (hw : w.entitiesInBounds) (h : alookup w.entities k = some e) : e.inBounds :=
  hw (k, e) (mem_of_alookup _ _ _ h)

theorem bounds_log (w : WorldState) (k d : String) (ac : Option String)
    (hw : w.entitiesInBounds) : (w.log_event k d ac).entitiesInBounds := by
  intro kv hkv
  rw [log_event_entities] at hkv
  exact hw kv hkv

theorem bounds_set_entity (w : WorldState) (aid : String) (e : Entity)
    (hw : w.entitiesInBounds) (he : e.inBounds) :
    WorldState.entitiesInBounds { w with entities := aset w.entities aid e } := by
  intro kv hkv
  rcases mem_aset w.entities aid e kv hkv with h | h
  · rw [h]; exact he
  · exact hw kv h

theorem bounds_update_qp (w : WorldState) (aid o : String) (a : Int)
    (hw : w.entitiesInBounds) :
    (w.update_entity_quest_progress aid o a).entitiesInBounds := by
  unfold WorldState.update_entity_quest_progress
  cases he : alookup w.entities aid with
  | none => exact hw
  | some e =>
    dsimp only
    intro kv hkv
    rcases mem_aset _ _ _ kv hkv with h | h
    · rw [h]
      exact (inBounds_set_quest_log e _).mpr (inBounds_of_lookup w aid e hw he)
    · exact hw kv h

theorem bounds_update_log (w : WorldState) (k d : String) (ac : Option String)
    (aid o : String) (a : Int) (hw : w.entitiesInBounds) :
    ((w.log_event k d ac).update_entity_quest_progress aid o a).entitiesInBounds :=
  bounds_update_qp _ _ _ _ (bounds_log w k d ac hw)

theorem bounds_fold_update (f : String → String) (aid : String) (l : List String)
    (w : WorldState) (hw : w.entitiesInBounds) :
    (List.foldl (fun wa g => wa.update_entity_quest_progress aid (f g) 1) w l).entitiesInBounds :=
  foldl_preserve WorldState.entitiesInBounds
    (fun wa g => wa.update_entity_quest_progress aid (f g) 1)
    (fun s x hs => bounds_update_qp s aid (f x) 1 hs) l w hw

theorem bounds_of_entities_eq (w w1 : WorldState) (h : w1.entities = w.entities)
    (hw : w.entitiesInBounds) : w1.entitiesInBounds := by
  intro kv hkv
  rw [h] at hkv
  exact hw kv hkv

theorem bounds_assign (w : WorldState) (eid qid : String) (hw : w.entitiesInBounds) :
    (w.assign_quest eid qid).1.entitiesInBounds := by
  unfold WorldState.assign_quest
  cases he : alookup w.entities eid with
  | none => cases hq : alookup w.quests qid <;> exact hw
  | some e =>
    cases hq : alookup w.quests qid with
    | none => exact hw
    | some q0 =>
      dsimp only
      split
      · exact hw
      · intro kv hkv
        rcases mem_aset _ _ _ kv hkv with h | h
        · rw [h]
          exact (inBounds_set_quest_log e _).mpr (inBounds_of_lookup w eid e hw he)
        · exact hw kv h

/-- The consume loop of `Craft.execute` keeps every inventory quantity
non-negative when the all-or-nothing check passed and the requirement keys are
unique. -/
theorem craft_fold_nonneg :
    ∀ (reqs : List (String × Int)) (inv : List (String × Int)),
      (∀ kv ∈ reqs, agetD inv kv.1 0 ≥ kv.2) →
      ((reqs.map Prod.fst).Nodup) →
      (∀ kv ∈ inv, (0 : Int) ≤ kv.2) →
      ∀ kv ∈ List.foldl (fun i r => aset i r.1 (agetD i r.1 0 - r.2)) inv reqs,
        (0 : Int) ≤ kv.2 := by
  intro reqs
  induction reqs with
  | nil => intro inv _ _ hinv; simpa using hinv
  | cons r rs ih =>
    intro inv hall hnd hinv
    rw [List.map_cons, List.nodup_cons] at hnd
    rw [List.foldl_cons]
    apply ih
    · intro kv hkv
      have hne : kv.1 ≠ r.1 := by
        intro hh
        exact hnd.1 (hh ▸ List.mem_map_of_mem Prod.fst hkv)
      rw [agetD_aset_ne _ _ _ _ _ hne]
      exact hall kv (List.mem_cons_of_mem _ hkv)
    · exact hnd.2
    · apply aset_nonneg _ _ _ hinv
      have := hall r (List.mem_cons_self _ _)
      omega

/-- Claim C4 (amended): every execution of an action from the closed set of
`src/mmorpg_tools/actions.py` preserves the entity bounds (hp 0..100,
mana 0..50, non-negative inventory) provided the action's integer parameters
satisfy `paramsOK`; the spec-modelled `useSkill` is excluded, since its effect
callback may mutate entities arbitrarily. -/
theorem execute_preserves_bounds (a : Action) (w : WorldState)
    (hw : w.entitiesInBounds) (hok : a.paramsOK) :
    ((a.execute w).1).entitiesInBounds := by
  cases a with
  | move aid tid dest =>
    simp only [Action.execute]
    cases he : alookup w.entities aid with
    | none => exact hw
    | some actor =>
      dsimp only
      apply bounds_update_log
      exact bounds_set_entity w aid _ hw (inBounds_of_lookup w aid actor hw he)
  | attack aid tid d =>
    simp only [Action.execute]
    cases he : alookup w.entities (tid.getD "") with
    | none => exact hw
    | some target =>
      have hok' : (0 : Int) ≤ d := hok
      obtain ⟨h1, h2, h3, h4, h5⟩ := inBounds_of_lookup w _ target hw he
      have ht1 : Entity.inBounds { target with hp := max 0 (target.hp - d) } :=
        ⟨le_max_left _ _, max_le (by norm_num) (by omega), h3, h4, h5⟩
      dsimp only
      split
      · exact bounds_log _ _ _ _ (bounds_set_entity w _ _ hw ht1)
      · exact bounds_fold_update (fun g => "defeat_tag:" ++ g) aid target.tags _
          (bounds_update_log _ _ _ _ _ _ _ (bounds_set_entity w _ _ hw ht1))
  | gather aid tid res amt =>
    simp only [Action.execute]
    cases he : alookup w.entities aid with
    | none => exact hw
    | some actor =>
      dsimp only
      cases ha : alookup w.areas actor.area with
      | none => exact hw
      | some area =>
        dsimp only
        split
        · exact hw
        · rename_i hdep
          have hok' : (0 : Int) ≤ amt := hok
          obtain ⟨h1, h2, h3, h4, h5⟩ := inBounds_of_lookup w aid actor hw he
          apply bounds_update_log
          apply bounds_set_entity _ _ _ (bounds_of_entities_eq w _ (adjust_entities w _ res _) hw)
          refine ⟨h1, h2, h3, h4, aset_nonneg _ _ _ h5 ?_⟩
          have hnn := agetD_nonneg actor.inventory res h5
          have hmin : (0 : Int) ≤ min amt (agetD area.resources res 0) :=
            le_min hok' (by omega)
          omega
  | craft aid tid recipe output reqs =>
    simp only [Action.execute]
    cases he : alookup w.entities aid with
    | none => exact hw
    | some actor =>
      dsimp only
      split
      · rename_i hall
        obtain ⟨hq1, hq2⟩ := hok
        obtain ⟨h1, h2, h3, h4, h5⟩ := inBounds_of_lookup w aid actor hw he
        have hall' : ∀ kv ∈ reqs, agetD actor.inventory kv.1 0 ≥ kv.2 := by
          intro kv hkv
          exact of_decide_eq_true (List.all_eq_true.mp hall kv hkv)
        have hfold := craft_fold_nonneg reqs actor.inventory hall' hq2 h5
        apply bounds_update_log
        apply bounds_set_entity _ _ _ hw
        refine ⟨h1, h2, h3, h4, aset_nonneg _ _ _ hfold ?_⟩
        have := agetD_nonneg _ output hfold
        omega
      · exact hw
  | chat aid tid msg =>
    simp only [Action.execute]
    cases he : alookup w.entities aid with
    | none => exact hw
    | some actor => exact bounds_log _ _ _ _ hw
  | observe aid tid =>
    simp only [Action.execute]
    cases he : alookup w.entities aid with
    | none => exact hw
    | some actor =>
      dsimp only
      cases ha : alookup w.areas actor.area with
      | none => exact hw
      | some area => exact bounds_log _ _ _ _ hw
  | rest aid tid hr mr =>
    simp only [Action.execute]
    cases he : alookup w.entities aid with
    | none => exact hw
    | some actor =>
      obtain ⟨hr0, hm0⟩ := hok
      obtain ⟨h1, h2, h3, h4, h5⟩ := inBounds_of_lookup w aid actor hw he
      apply bounds_log
      apply bounds_set_entity _ _ _ hw
      exact ⟨le_min (by norm_num) (by omega), min_le_left _ _,
             le_min (by norm_num) (by omega), min_le_left _ _, h5⟩
  | acceptQuest aid tid qid =>
    simp only [Action.execute]
    split
    · exact bounds_log _ _ _ _ (bounds_assign w aid qid hw)
    · exact hw
  | useSkill aid tid sid => exact hok.elim

/-- Claim C4 counterexample: `Rest` with a negative hpRestore drives hp below
0 — in a world whose single entity has hp 10, `Rest(hpRestore = -200)` leaves
hp at min(100, 10 - 200) = -190, so the bounds are not preserved for arbitrary
integer parameters. -/
theorem bounds_cex :
    WorldState.entitiesInBounds selfWorld ∧
    ¬ WorldState.entitiesInBounds ((Action.execute (.rest "s" none (-200) 0) selfWorld).1) := by
  constructor
  · simp only [WorldState.entitiesInBounds, Entity.inBounds]
    decide
  · simp only [WorldState.entitiesInBounds, Entity.inBounds]
    decide

/-- Witness for the amended C4 at a concrete input: a damaging self-attack
with non-negative damage keeps the world in bounds. -/
theorem execute_preserves_bounds_witness :
    WorldState.entitiesInBounds ((Action.execute (.attack "s" (some "s") 4) selfWorld).1) :=
  execute_preserves_bounds (.attack "s" (some "s") 4) selfWorld
    (by simp only [WorldState.entitiesInBounds, Entity.inBounds]; decide)
    (by simp only [Action.paramsOK]; decide)

/-! ## Claim C6 -/

/-- The objective keys Attack advances when the target dies, in call order:
the defeat key, then one defeat_tag key per entry of the target's tag list. -/
def updateKeysOf (t : Entity) : List String :=
  ("defeat:" ++ t.entity_id) :: t.tags.map (fun g => "defeat_tag:" ++ g)

theorem defeat_keys_disjoint (s g : String) : ("defeat:" ++ s) ≠ ("defeat_tag:" ++ g) := by
  intro h
  have hd := congrArg String.data h
  rw [String.data_append, String.data_append] at hd
  have h6 := congrArg (fun l => l[6]?) hd
  simp only at h6
  rw [List.getElem?_append_left (by decide), List.getElem?_append_left (by decide)] at h6
  exact absurd h6 (by decide)

theorem tag_append_injective : Function.Injective (fun g => "defeat_tag:" ++ g) := by
  intro a b h
  apply String.ext
  have hd := congrArg String.data h
  rw [String.data_append, String.data_append] at hd
  exact List.append_cancel_left hd

theorem count_defeat_key (t : Entity) :
    (updateKeysOf t).count ("defeat:" ++ t.entity_id) = 1 := by
  unfold updateKeysOf
  rw [List.count_cons_self]
  have hnot : ("defeat:" ++ t.entity_id) ∉ t.tags.map (fun g => "defeat_tag:" ++ g) := by
    intro hmem
    obtain ⟨g, _, heq⟩ := List.mem_map.mp hmem
    exact defeat_keys_disjoint t.entity_id g heq.symm
  rw [List.count_eq_zero.mpr hnot]

theorem count_tag_key (t : Entity) (hnd : t.tags.Nodup) (g : String) (hg : g ∈ t.tags) :
    (updateKeysOf t).count ("defeat_tag:" ++ g) = 1 := by
  unfold updateKeysOf
  rw [List.count_cons_of_ne (fun hh => defeat_keys_disjoint t.entity_id g hh.symm)]
  have hcm := List.count_map_of_injective t.tags (fun x => "defeat_tag:" ++ x)
    tag_append_injective g
  rw [hcm]
  exact List.count_eq_one_of_mem hnd hg

theorem entityQuestLog_log (w : WorldState) (k dt : String) (ac : Option String)
    (eid : String) :
    entityQuestLog (w.log_event k dt ac) eid = entityQuestLog w eid := by
  unfold entityQuestLog
  rw [log_event_entities]

theorem entityQuestLog_set_hp (w : WorldState) (tid : String) (t : Entity)
    (ht : alookup w.entities tid = some t) (t1 : Entity)
    (hql : t1.quest_log = t.quest_log) (eid : String) :
    entityQuestLog { w with entities := aset w.entities tid t1 } eid
      = entityQuestLog w eid := by
  unfold entityQuestLog
  dsimp only
  by_cases heid : eid = tid
  · subst heid
    rw [alookup_aset_self, ht]
    exact hql
  · rw [alookup_aset_ne _ _ _ _ heid]

/-- The attacked entity with its hp clamped at `max 0 (hp - damage)`. -/
def clampHp (t : Entity) (d : Int) : Entity := { t with hp := max 0 (t.hp - d) }

/-- The world state right after Attack has clamped the target's hp and logged
the attack, before any kill-triggered quest updates. -/
def attackLogged (w : WorldState) (aid tid : String) (d : Int) (t : Entity) : WorldState :=
  WorldState.log_event { w with entities := aset w.entities tid (clampHp t d) } "attack"
    (aid ++ ":" ++ t.entity_id ++ ":" ++ toString d) (some aid)

/-- The behaviour Claim C6 ascribes to Attack.execute when the precondition
holds: clamped hp; no progress change while the target survives; on a kill,
one progress unit per occurrence of each objective key in
`updateKeysOf target` for every record that stays uncompleted; and the key
list contains the defeat key exactly once and each distinct tag key once. -/
def AttackSpec (w : WorldState) (aid tid : String) (d : Int) (t : Entity) : Prop :=
  (∃ t1, alookup ((Action.execute (.attack aid (some tid) d) w).1).entities tid = some t1 ∧
    t1.hp = max 0 (t.hp - d) ∧ 0 ≤ t1.hp) ∧
  (0 < t.hp - d →
    ∀ eid, entityQuestLog ((Action.execute (.attack aid (some tid) d) w).1) eid
      = entityQuestLog w eid) ∧
  (t.hp - d ≤ 0 →
    ∀ qid p q, alookup (entityQuestLog w aid) qid = some p →
      alookup w.quests qid = some q → p.completed = false →
      ∃ p1, alookup (entityQuestLog ((Action.execute (.attack aid (some tid) d) w).1) aid) qid
          = some p1 ∧
        (p1.completed = false →
          ∀ k, (alookup q.objectives k).isSome = true →
            agetD p1.progress k 0 = agetD p.progress k 0 + ((updateKeysOf t).count k : Int))) ∧
  ((updateKeysOf t).count ("defeat:" ++ t.entity_id) = 1 ∧
    (t.tags.Nodup → ∀ g ∈ t.tags, (updateKeysOf t).count ("defeat_tag:" ++ g) = 1))

/-- Claim C6: for every Attack whose precondition holds, execute clamps the
target's hp at `max 0 (hp - damage)` (never below 0), performs no quest
updates while the target survives, and on a kill advances exactly one
`defeat:<targetId>` and one `defeat_tag:<tag>` unit per tag for each of the
actor's still-uncompleted quest records whose quest contains that key. -/
theorem attack_effects (w : WorldState) (aid tid : String) (d : Int) (t : Entity)
    (ht : alookup w.entities tid = some t)
    (hcan : Action.can_execute (.attack aid (some tid) d) w = true) :
    AttackSpec w aid tid d t := by
  refine ⟨?_, ?_, ?_, count_defeat_key t, count_tag_key t⟩
  · -- clamped hp in both branches
    have hmap : (alookup ((Action.execute (.attack aid (some tid) d) w).1).entities tid).map
        Entity.hp = some (max 0 (t.hp - d)) := attack_execute_hp w aid (some tid) d t ht
    cases hl : alookup ((Action.execute (.attack aid (some tid) d) w).1).entities tid with
    | none => rw [hl] at hmap; simp at hmap
    | some t1 =>
      rw [hl] at hmap
      have hhp : t1.hp = max 0 (t.hp - d) := by simpa using hmap
      exact ⟨t1, rfl, hhp, by rw [hhp]; exact le_max_left 0 _⟩
  · -- survive: no quest-log change
    intro hsurv eid
    have h0 : (0 : Int) < max 0 (t.hp - d) := lt_max_iff.mpr (Or.inr hsurv)
    have hcond : Entity.is_alive { t with hp := max 0 (t.hp - d) } = true := by
      unfold Entity.is_alive
      simpa using h0
    have hw1 : (Action.execute (.attack aid (some tid) d) w).1 = attackLogged w aid tid d t := by
      simp only [Action.execute, Option.getD, ht]
      rw [if_pos hcond]
      rfl
    rw [hw1]
    unfold attackLogged
    rw [entityQuestLog_log]
    exact entityQuestLog_set_hp w tid t ht (clampHp t d) rfl eid
  · -- kill: counted progress updates
    intro hkill qid p q hpq hq hpc
    have hmx : max 0 (t.hp - d) = 0 := max_eq_left hkill
    have hcond : Entity.is_alive { t with hp := max 0 (t.hp - d) } = false := by
      unfold Entity.is_alive
      simp [hmx]
    have hw1 : (Action.execute (.attack aid (some tid) d) w).1
        = List.foldl (fun wa k => wa.update_entity_quest_progress aid k 1)
            (attackLogged w aid tid d t) (updateKeysOf t) := by
      simp only [Action.execute, Option.getD, ht]
      rw [if_neg (by simp [hcond])]
      unfold updateKeysOf
      rw [List.foldl_cons, List.foldl_map]
      rfl
    have hq2 : alookup (attackLogged w aid tid d t).quests qid = some q := by
      unfold attackLogged
      rw [log_event_quests]
      exact hq
    have hpq2 : alookup (entityQuestLog (attackLogged w aid tid d t) aid) qid = some p := by
      unfold attackLogged
      rw [entityQuestLog_log, entityQuestLog_set_hp w tid t ht (clampHp t d) rfl]
      exact hpq
    obtain ⟨p1, hlook, _, hfalse⟩ :=
      fold_update_tracks aid (updateKeysOf t) (attackLogged w aid tid d t) qid p q hq2 hpq2
    refine ⟨p1, ?_, ?_⟩
    · rw [hw1]
      exact hlook
    · intro hpf k hk
      exact (hfalse hpf).2 k hk

def killQuest : Quest :=
  { quest_id := "q1", title := "hunt", description := "hunt the wolf",
    objectives := [("defeat:m", 1), ("defeat_tag:mob", 3)] }

def hunter : Entity :=
  { entity_id := "a", name := "Ann", area := "V", quest_log := [("q1", freshProgress "q1")] }

def wolf : Entity :=
  { entity_id := "m", name := "Wolf", area := "V", hp := 5, tags := ["mob"] }

def killWorld : WorldState :=
  { entities := [("a", hunter), ("m", wolf)], quests := [("q1", killQuest)] }

/-- Witness for C6: a concrete kill advances the hunter's quest by exactly one
defeat and one defeat_tag unit. -/
theorem attack_effects_witness : AttackSpec killWorld "a" "m" 8 wolf :=
  attack_effects killWorld "a" "m" 8 wolf rfl (by decide)

end MMORPG
